import Mathlib

/-!
Verification of the memory allocators of the repository
"Very efficient and low level programming": the fixed-size block pool
allocator MemoryPool (Fast_allocator_than_new_and_delete.cpp) and the
bump arenas Arena and MemoryArena (memory arena tutorial file).

Pointers are modelled as numeric addresses (Nat).  The C++ code performs
its address computations on size_t, a 64-bit unsigned type, so every
operation that the source performs on size_t values is modelled with an
explicit truncation modulo 2 ^ 64 wherever wrap-around can occur.
-/

/-- Number of values of the 64-bit type size_t, that is 2 ^ 64. -/
def WORD : Nat := 2 ^ 64

/-- Truncation of a natural number to a 64-bit size_t value. -/
def tr64 (x : Nat) : Nat := x % WORD

/-- 64-bit unsigned subtraction (wraps modulo 2 ^ 64), as C computes
x - y on size_t operands. -/
def sub64 (x y : Nat) : Nat := (tr64 x + (WORD - tr64 y)) % WORD

/-- 64-bit bitwise complement, as C computes ~x on a size_t operand. -/
def not64 (x : Nat) : Nat := WORD - 1 - tr64 x

/-- The single failure condition of both allocators.  Both throw
std::bad_alloc on exhaustion; the spec calls this condition OutOfMemory. -/
inductive AllocError where
  | outOfMemory
  deriving DecidableEq

/-- Alignment values that are powers of two representable in size_t. -/
def isPow2 (al : Nat) : Prop := ∃ k, k < 64 ∧ al = 2 ^ k

/-- Pointwise predicate over a list, spelled as an explicit conjunction. -/
def ListAll {α : Type} (p : α → Prop) : List α → Prop
  | [] => True
  | x :: l => p x ∧ ListAll p l

/-- State of MemoryPool from Fast_allocator_than_new_and_delete.cpp
(identical class in the unnamed variant file).  pool is the numeric
address of the m_Pool buffer, blockSize is sizeof(T), freeList lists the
addresses of the free blocks in chain order starting at m_FreeList (the
empty list is a null m_FreeList), blockCount is m_BlockCount.  Each free
block stores only the address of the next free block inside its own
storage, so the chain of addresses is a complete model of the list. -/
structure MemoryPool where
  pool : Nat
  blockSize : Nat
  freeList : List Nat
  blockCount : Nat
  deriving DecidableEq

/-- The MemoryPool constructor, traced from the source.  It first seats
m_FreeList at slot 0 of the buffer unconditionally, then the loop links
slot i-1 to slot i for i = 1 .. block_count-1, and the last visited slot
gets a null next pointer.  For block_count = 0 the loop body never runs
and the chain still consists of the single bogus node at the buffer base
(the terminating write then lands out of bounds of the zero-byte buffer,
but m_FreeList itself is left equal to m_Pool, which is not null). -/
def MemoryPool.init (base sz n : Nat) : MemoryPool :=
  { pool := base, blockSize := sz,
    freeList := base :: (List.range' 1 (n - 1)).map (fun i => base + i * sz),
    blockCount := n }

/-- MemoryPool::Allocate.  The throw of std::bad_alloc happens before any
member is written, so on failure the state component of the result is the
unchanged input state.  On success the head block is popped and returned. -/
def MemoryPool.Allocate (p : MemoryPool) : Except AllocError Nat × MemoryPool :=
  match p.freeList with
  | [] => (Except.error AllocError.outOfMemory, p)
  | b :: rest => (Except.ok b, { p with freeList := rest })

/-- MemoryPool::Deallocate: the freed block gets the old head as its next
pointer and becomes the new head of the free list. -/
def MemoryPool.Deallocate (p : MemoryPool) (q : Nat) : MemoryPool :=
  { p with freeList := q :: p.freeList }

/-- Test harness over the source operations: call Allocate k times,
require every call to succeed, and collect the returned addresses in
order.  A failing call aborts the run with its error. -/
def MemoryPool.allocRun (p : MemoryPool) : Nat → Except AllocError (List Nat) × MemoryPool
  | 0 => (Except.ok [], p)
  | k + 1 =>
    match p.Allocate with
    | (Except.ok b, p1) =>
      match p1.allocRun k with
      | (Except.ok bs, p2) => (Except.ok (b :: bs), p2)
      | (Except.error e, p2) => (Except.error e, p2)
    | (Except.error e, p1) => (Except.error e, p1)

/-- The plain Arena struct of the arena tutorial: a byte buffer (memory
holds its numeric base address), a fixed capacity and a bump offset. -/
structure Arena where
  memory : Nat
  capacity : Nat
  offset : Nat
  deriving DecidableEq

/-- Arena(size): capacity = size, offset = 0, memory = new char[size],
with base the address at which that buffer happens to be placed. -/
def Arena.init (base size : Nat) : Arena :=
  { memory := tr64 base, capacity := tr64 size, offset := 0 }

/-- Arena::allocate(size): throws std::bad_alloc when
offset + size > capacity (computed on size_t), otherwise returns
memory + offset and advances offset by size.  The throw happens before
offset is written, so on failure the state is unchanged. -/
def Arena.allocate (a : Arena) (size : Nat) : Except AllocError Nat × Arena :=
  if a.capacity < tr64 (a.offset + size) then
    (Except.error AllocError.outOfMemory, a)
  else
    (Except.ok (tr64 (a.memory + a.offset)), { a with offset := tr64 (a.offset + size) })

/-- Arena::reset: offset = 0. -/
def Arena.reset (a : Arena) : Arena := { a with offset := 0 }

/-- MemoryArena of the arena tutorial (the implementation with alignment
support): buffer holds the numeric base address of the block, capacity
its total size, offset the current allocation offset. -/
structure MemoryArena where
  buffer : Nat
  capacity : Nat
  offset : Nat
  deriving DecidableEq

/-- MemoryArena(size): capacity = size, offset = 0, buffer allocated by
operator new at whatever address base it happens to be placed. -/
def MemoryArena.init (base size : Nat) : MemoryArena :=
  { buffer := tr64 base, capacity := tr64 size, offset := 0 }

/-- size_t current = reinterpret_cast of buffer + offset. -/
def MemoryArena.currentOf (a : MemoryArena) : Nat := tr64 (a.buffer + a.offset)

/-- size_t aligned = (current + alignment - 1) AND (complement of
(alignment - 1)).  The sum current + alignment is a size_t addition, the
subtraction of 1 a size_t subtraction; the bitwise AND with a mask below
2 ^ 64 makes a separate truncation of the left operand redundant. -/
def MemoryArena.alignedOf (a : MemoryArena) (alignment : Nat) : Nat :=
  Nat.land (sub64 (a.currentOf + alignment) 1) (not64 (sub64 alignment 1))

/-- size_t adjustment = aligned - reinterpret_cast of buffer - offset,
two size_t subtractions evaluated left to right. -/
def MemoryArena.adjustmentOf (a : MemoryArena) (alignment : Nat) : Nat :=
  sub64 (sub64 (a.alignedOf alignment) a.buffer) a.offset

/-- MemoryArena::allocate(size, alignment): throws std::bad_alloc when
offset + adjustment + size > capacity (the sum computed on size_t),
otherwise returns buffer + offset + adjustment and advances offset by
adjustment + size.  The throw happens before offset is written, so on
failure the state component of the result is the unchanged input state. -/
def MemoryArena.allocate (a : MemoryArena) (size alignment : Nat) :
    Except AllocError Nat × MemoryArena :=
  if a.capacity < tr64 (a.offset + a.adjustmentOf alignment + size) then
    (Except.error AllocError.outOfMemory, a)
  else
    (Except.ok (tr64 (a.buffer + a.offset + a.adjustmentOf alignment)),
     { a with offset := tr64 (a.offset + a.adjustmentOf alignment + size) })

/-- MemoryArena::reset: offset = 0. -/
def MemoryArena.reset (a : MemoryArena) : MemoryArena := { a with offset := 0 }

/-- A client call on the arena: allocate(size, alignment) or reset(). -/
inductive ArenaCmd where
  | alloc (size alignment : Nat)
  | reset
  deriving DecidableEq

/-- Run a sequence of arena calls.  A failing allocate leaves the state
unchanged, exactly as the source throws before mutating. -/
def MemoryArena.exec (a : MemoryArena) : List ArenaCmd → MemoryArena
  | [] => a
  | ArenaCmd.alloc s al :: cs => ((a.allocate s al).2).exec cs
  | ArenaCmd.reset :: cs => (a.reset).exec cs

/-- The (pointer, alignment) pairs returned by the successful allocations
of a call sequence, in call order. -/
def MemoryArena.ptrs (a : MemoryArena) : List ArenaCmd → List (Nat × Nat)
  | [] => []
  | ArenaCmd.alloc s al :: cs =>
    match a.allocate s al with
    | (Except.ok p, a1) => (p, al) :: a1.ptrs cs
    | (Except.error _, a1) => a1.ptrs cs
  | ArenaCmd.reset :: cs => (a.reset).ptrs cs

/-- Conditions on one arena call under which the pointer range and
alignment guarantees hold: a positive size, a power-of-two alignment, and
parameters small enough that the size_t bounds check cannot wrap. -/
def GoodCmd (base cap : Nat) : ArenaCmd → Prop
  | ArenaCmd.alloc s al => 1 ≤ s ∧ isPow2 al ∧ base + cap + al + s ≤ WORD
  | ArenaCmd.reset => True

/-- The pointer pr.1 lies inside the buffer of the given base and
capacity and is a multiple of the alignment pr.2 it was requested with. -/
def InRangePtr (base cap : Nat) (pr : Nat × Nat) : Prop :=
  base ≤ pr.1 ∧ pr.1 < base + cap ∧ pr.1 % pr.2 = 0

theorem WORD_pos : 0 < WORD := by norm_num [WORD]

theorem one_lt_WORD : 1 < WORD := by norm_num [WORD]

theorem tr64_eq_of_lt {x : Nat} (h : x < WORD) : tr64 x = x := Nat.mod_eq_of_lt h

/-- 64-bit subtraction of 1 agrees with truncated subtraction on
operands that fit in a word. -/
theorem sub64_one {x : Nat} (h1 : 1 ≤ x) (h2 : x ≤ WORD) : sub64 x 1 = x - 1 := by
  unfold sub64 tr64
  have hW : 1 < WORD := one_lt_WORD
  rcases Nat.lt_or_ge x WORD with h | h
  · rw [Nat.mod_eq_of_lt h, Nat.mod_eq_of_lt hW]
    have h3 : x + (WORD - 1) = WORD + (x - 1) := by omega
    rw [h3, Nat.add_mod_left]
    exact Nat.mod_eq_of_lt (by omega)
  · have hx : x = WORD := le_antisymm h2 h
    subst hx
    rw [Nat.mod_self, Nat.mod_eq_of_lt hW, Nat.zero_add]
    exact Nat.mod_eq_of_lt (by omega)

/-- 64-bit subtraction agrees with ordinary subtraction when the minuend
fits in a word and is at least the subtrahend. -/
theorem sub64_of_le {x y : Nat} (hyx : y ≤ x) (hx : x < WORD) : sub64 x y = x - y := by
  unfold sub64 tr64
  rw [Nat.mod_eq_of_lt hx, Nat.mod_eq_of_lt (lt_of_le_of_lt hyx hx)]
  have h : x + (WORD - y) = WORD + (x - y) := by omega
  rw [h, Nat.add_mod_left]
  exact Nat.mod_eq_of_lt (by omega)

theorem pow_lt_WORD {k : Nat} (hk : k < 64) : 2 ^ k < WORD :=
  Nat.pow_lt_pow_right (by norm_num) hk

/-- The mask that the complement of (2 ^ k - 1) denotes on 64 bits. -/
theorem not64_pow_sub_one {k : Nat} (hk : k < 64) : not64 (2 ^ k - 1) = WORD - 2 ^ k := by
  unfold not64 tr64
  have h1 : 2 ^ k - 1 < WORD := lt_of_le_of_lt (Nat.sub_le _ _) (pow_lt_WORD hk)
  have h2 : 1 ≤ 2 ^ k := Nat.one_le_two_pow
  rw [Nat.mod_eq_of_lt h1]
  omega

/-- Clearing the low k bits of a word keeps exactly the high part:
x AND (2 ^ 64 - 2 ^ k) = 2 ^ k * (x / 2 ^ k) for x below 2 ^ 64. -/
theorem land_word_mask {x k : Nat} (hk : k ≤ 64) (hx : x < WORD) :
    Nat.land x (WORD - 2 ^ k) = 2 ^ k * (x / 2 ^ k) := by
  have h1 : 2 ^ k * (x / 2 ^ k) = (x >>> k) <<< k := by
    rw [Nat.shiftRight_eq_div_pow, Nat.shiftLeft_eq, Nat.mul_comm]
  have h2 : WORD - 2 ^ k = (2 ^ (64 - k) - 1) <<< k := by
    rw [Nat.shiftLeft_eq, Nat.sub_mul, Nat.one_mul, ← pow_add, Nat.sub_add_cancel hk]
    rfl
  have h3 : Nat.land x ((2 ^ (64 - k) - 1) <<< k) = x &&& ((2 ^ (64 - k) - 1) <<< k) := rfl
  rw [h1, h2, h3]
  apply Nat.eq_of_testBit_eq
  intro i
  rw [Nat.testBit_land, Nat.testBit_shiftLeft, Nat.testBit_shiftLeft, Nat.testBit_shiftRight,
      Nat.testBit_two_pow_sub_one]
  by_cases hik : k ≤ i
  · have hki : k + (i - k) = i := by omega
    rw [hki]
    by_cases hi64 : i < 64
    · have hlt : i - k < 64 - k := by omega
      simp [hik, hlt]
    · have hxb : x.testBit i = false := by
        apply Nat.testBit_lt_two_pow
        calc x < WORD := hx
        _ = 2 ^ 64 := rfl
        _ ≤ 2 ^ i := Nat.pow_le_pow_right (by norm_num) (by omega)
      simp [hxb]
  · simp [hik]

/-- Rounding c up to the next multiple of a positive al is at least c. -/
theorem roundUp_ge {c al : Nat} (ha : 0 < al) : c ≤ al * ((c + al - 1) / al) := by
  have h1 := Nat.div_add_mod (c + al - 1) al
  have h2 : (c + al - 1) % al < al := Nat.mod_lt _ ha
  set t := al * ((c + al - 1) / al) with ht
  omega

/-- Rounding c up to the next multiple of a positive al stays below c + al. -/
theorem roundUp_lt {c al : Nat} (ha : 0 < al) : al * ((c + al - 1) / al) < c + al := by
  have h1 : (c + al - 1) / al * al ≤ c + al - 1 := Nat.div_mul_le_self _ _
  have h2 : al * ((c + al - 1) / al) = (c + al - 1) / al * al := Nat.mul_comm _ _
  omega

/-- Under a power-of-two alignment and an address computation that does
not wrap the 64-bit space, the aligned address computed by the source is
exactly the mathematical rounding of buffer + offset up to the next
multiple of the alignment. -/
theorem alignedOf_eq {a : MemoryArena} {al k : Nat} (hk : k < 64) (hal : al = 2 ^ k)
    (hbd : a.buffer + a.offset + al ≤ WORD) :
    a.alignedOf al = al * ((a.buffer + a.offset + al - 1) / al) := by
  have hpos : 0 < al := hal ▸ Nat.pos_pow_of_pos k (by norm_num)
  have halW : al < WORD := hal ▸ pow_lt_WORD hk
  have hc : a.buffer + a.offset < WORD := by omega
  unfold MemoryArena.alignedOf MemoryArena.currentOf
  rw [tr64_eq_of_lt hc]
  rw [sub64_one hpos (le_of_lt halW)]
  rw [sub64_one (by omega) hbd]
  rw [hal, not64_pow_sub_one hk]
  exact land_word_mask (le_of_lt hk) (by omega)

/-- Under the same conditions the adjustment is the alignment padding:
buffer + offset + adjustment is the rounded-up address, and the padding
is smaller than the alignment. -/
theorem adjustmentOf_eq {a : MemoryArena} {al k : Nat} (hk : k < 64) (hal : al = 2 ^ k)
    (hbd : a.buffer + a.offset + al ≤ WORD) :
    a.buffer + a.offset + a.adjustmentOf al = al * ((a.buffer + a.offset + al - 1) / al)
    ∧ a.adjustmentOf al < al := by
  have hpos : 0 < al := hal ▸ Nat.pos_pow_of_pos k (by norm_num)
  have hge : a.buffer + a.offset ≤ al * ((a.buffer + a.offset + al - 1) / al) := roundUp_ge hpos
  have hlt : al * ((a.buffer + a.offset + al - 1) / al) < a.buffer + a.offset + al :=
    roundUp_lt hpos
  have hA := alignedOf_eq hk hal hbd
  have hAW : a.alignedOf al < WORD := by omega
  unfold MemoryArena.adjustmentOf
  rw [sub64_of_le (by omega) hAW, sub64_of_le (by omega) (by omega)]
  omega

/-- Clean form of MemoryArena::allocate: under a power-of-two alignment
and parameters that cannot wrap the size_t arithmetic, the allocate call
compares offset + adjustment + size with the capacity exactly, and on
success returns buffer + offset + adjustment while advancing the offset
by adjustment + size, with no truncation left. -/
theorem allocate_eq_clean {a : MemoryArena} {s al k : Nat} (hk : k < 64) (hal : al = 2 ^ k)
    (hbd : a.buffer + a.offset + al ≤ WORD) (hsum : a.offset + al + s ≤ WORD) :
    a.allocate s al =
      if a.capacity < a.offset + a.adjustmentOf al + s then
        (Except.error AllocError.outOfMemory, a)
      else
        (Except.ok (a.buffer + a.offset + a.adjustmentOf al),
         { a with offset := a.offset + a.adjustmentOf al + s }) := by
  have hadj := (adjustmentOf_eq hk hal hbd).2
  have h1 : tr64 (a.offset + a.adjustmentOf al + s) = a.offset + a.adjustmentOf al + s :=
    tr64_eq_of_lt (by omega)
  have h2 : tr64 (a.buffer + a.offset + a.adjustmentOf al) =
      a.buffer + a.offset + a.adjustmentOf al := tr64_eq_of_lt (by omega)
  unfold MemoryArena.allocate
  rw [h1, h2]

/-- For at least one block the constructed free list is exactly the
ascending chain of the n slot addresses. -/
theorem init_freeList {base sz n : Nat} (hn : 1 ≤ n) :
    (MemoryPool.init base sz n).freeList = (List.range n).map (fun i => base + i * sz) := by
  obtain ⟨m, rfl⟩ : ∃ m, n = m + 1 := ⟨n - 1, by omega⟩
  unfold MemoryPool.init
  rw [List.range_eq_range', List.range'_succ, List.map_cons]
  simp

/-- Running the harness k times on a pool whose free list has at least k
blocks succeeds and pops exactly the first k chain entries in order. -/
theorem allocRun_take (k : Nat) :
    ∀ p : MemoryPool, k ≤ p.freeList.length →
      p.allocRun k = (Except.ok (p.freeList.take k), { p with freeList := p.freeList.drop k }) := by
  induction k with
  | zero => intro p _; rfl
  | succ k ih =>
    intro p hk
    match hfl : p.freeList with
    | [] => rw [hfl] at hk; simp at hk
    | b :: rest =>
      rw [hfl] at hk
      have hk2 : k ≤ rest.length := by simpa using hk
      have hA : p.Allocate = (Except.ok b, { p with freeList := rest }) := by
        unfold MemoryPool.Allocate
        rw [hfl]
      have hIH := ih { p with freeList := rest } hk2
      simp only at hIH
      simp [MemoryPool.allocRun, hA, hIH, hfl]

/-- Every step of exec preserves the buffer and the capacity of the
arena, and keeps the offset at or below the capacity. -/
theorem allocate_snd_fields (a : MemoryArena) (s al : Nat) :
    ((a.allocate s al).2).buffer = a.buffer ∧ ((a.allocate s al).2).capacity = a.capacity := by
  unfold MemoryArena.allocate
  split
  · exact ⟨rfl, rfl⟩
  · exact ⟨rfl, rfl⟩

/-- The bump offset never exceeds the capacity after an allocate call
that starts at or below the capacity; the capacity check enforces the
bound even on the truncated sum. -/
theorem allocate_snd_offset_le {a : MemoryArena} (s al : Nat) (h : a.offset ≤ a.capacity) :
    ((a.allocate s al).2).offset ≤ a.capacity := by
  unfold MemoryArena.allocate
  split
  · exact h
  · next hcond => simpa using Nat.not_lt.mp hcond

theorem exec_fields (cs : List ArenaCmd) :
    ∀ a : MemoryArena, (a.exec cs).buffer = a.buffer ∧ (a.exec cs).capacity = a.capacity := by
  induction cs with
  | nil => intro a; exact ⟨rfl, rfl⟩
  | cons c cs ih =>
    intro a
    cases c with
    | alloc s al =>
      have h1 := allocate_snd_fields a s al
      have h2 := ih ((a.allocate s al).2)
      unfold MemoryArena.exec
      exact ⟨h2.1.trans h1.1, h2.2.trans h1.2⟩
    | reset =>
      have h2 := ih a.reset
      unfold MemoryArena.exec
      exact h2

/-- Invariant: the offset stays at or below the capacity along any
sequence of allocate and reset calls, whatever their arguments. -/
theorem exec_offset_le (cs : List ArenaCmd) :
    ∀ a : MemoryArena, a.offset ≤ a.capacity → (a.exec cs).offset ≤ a.capacity := by
  induction cs with
  | nil => intro a h; exact h
  | cons c cs ih =>
    intro a h
    cases c with
    | alloc s al =>
      have h1 : ((a.allocate s al).2).offset ≤ ((a.allocate s al).2).capacity := by
        rw [(allocate_snd_fields a s al).2]
        exact allocate_snd_offset_le s al h
      have h2 := ih ((a.allocate s al).2) h1
      unfold MemoryArena.exec
      rw [(allocate_snd_fields a s al).2] at h2
      exact h2
    | reset =>
      have h2 := ih a.reset (Nat.zero_le _)
      unfold MemoryArena.exec
      exact h2

/-- A successful allocate with positive size, power-of-two alignment and
wrap-free parameters returns a pointer inside the buffer that satisfies
the requested alignment. -/
theorem allocate_ok_ptr {a : MemoryArena} {s al p : Nat} {a1 : MemoryArena}
    (hp2 : isPow2 al) (hs : 1 ≤ s)
    (hbd : a.buffer + a.capacity + al + s ≤ WORD)
    (hoff : a.offset ≤ a.capacity)
    (hsucc : a.allocate s al = (Except.ok p, a1)) :
    a.buffer ≤ p ∧ p < a.buffer + a.capacity ∧ p % al = 0 := by
  obtain ⟨k, hk, hal⟩ := hp2
  have hclean := @allocate_eq_clean a s al k hk hal (by omega) (by omega)
  rw [hclean] at hsucc
  split at hsucc
  · exact absurd (congrArg Prod.fst hsucc) (by simp)
  · next hcond =>
    have hle : a.offset + a.adjustmentOf al + s ≤ a.capacity := Nat.not_lt.mp hcond
    rw [Prod.mk.injEq, Except.ok.injEq] at hsucc
    have hpeq : p = a.buffer + a.offset + a.adjustmentOf al := hsucc.1.symm
    have hadj := @adjustmentOf_eq a al k hk hal (by omega)
    refine ⟨by omega, by omega, ?_⟩
    rw [hpeq, hadj.1]
    exact Nat.mul_mod_right _ _

/-- Along any call sequence whose allocations all satisfy GoodCmd, every
pointer returned by a successful allocate lies inside the buffer and
satisfies its requested alignment. -/
theorem ptrs_spec (cs : List ArenaCmd) (base cap : Nat) :
    ∀ a : MemoryArena, a.buffer = base → a.capacity = cap → a.offset ≤ cap →
      ListAll (GoodCmd base cap) cs →
      ListAll (InRangePtr base cap) (a.ptrs cs) := by
  induction cs with
  | nil => intro a _ _ _ _; exact trivial
  | cons c cs ih =>
    intro a hbuf hcap hoff hgood
    cases c with
    | alloc s al =>
      obtain ⟨⟨hs, hp2, hbd⟩, hrest⟩ := hgood
      have hfields := allocate_snd_fields a s al
      have hoff1 : ((a.allocate s al).2).offset ≤ cap := by
        have := allocate_snd_offset_le s al (hcap ▸ hoff)
        omega
      have hih := ih ((a.allocate s al).2) (hfields.1.trans hbuf)
        (hfields.2.trans hcap) hoff1 hrest
      match hres : a.allocate s al with
      | (Except.ok p, a1) =>
        have hgoodp : InRangePtr base cap (p, al) := by
          have := allocate_ok_ptr hp2 hs
            (by rw [hbuf, hcap]; exact hbd) (hcap ▸ hoff) hres
          unfold InRangePtr
          rw [← hbuf, ← hcap]
          exact this
        rw [hres] at hih
        simp only [MemoryArena.ptrs, hres]
        exact ⟨hgoodp, hih⟩
      | (Except.error e, a1) =>
        rw [hres] at hih
        simp only [MemoryArena.ptrs, hres]
        exact hih
    | reset =>
      have hih := ih a.reset hbuf hcap (Nat.zero_le _) hgood.2
      exact hih

theorem listAll_iff_forall {α : Type} (p : α → Prop) (l : List α) :
    ListAll p l ↔ ∀ x ∈ l, p x := by
  induction l with
  | nil => simp [ListAll]
  | cons x l ih => simp [ListAll, ih]

/-- Shared helper: the n-call harness on a fresh pool with at least one
block succeeds, returns the slot addresses in ascending order, and leaves
an empty free list. -/
theorem allocRun_init (base sz n : Nat) (hn : 1 ≤ n) :
    (MemoryPool.init base sz n).allocRun n =
      (Except.ok ((List.range n).map (fun i => base + i * sz)),
       { pool := base, blockSize := sz, freeList := [], blockCount := n }) := by
  have hfl := @init_freeList base sz n hn
  have hlen : (MemoryPool.init base sz n).freeList.length = n := by
    rw [hfl, List.length_map, List.length_range]
  have hrun := allocRun_take n (MemoryPool.init base sz n) (le_of_eq hlen.symm)
  rw [hrun]
  rw [List.take_of_length_le (le_of_eq hlen), List.drop_eq_nil_of_le (le_of_eq hlen)]
  rw [hfl]
  rfl

/-- C1 (amended): for every blockCount n with 1 ≤ n, on a fresh pool the
first n Allocate calls all succeed, returning the n slot addresses in
ascending order, and the call after them fails with OutOfMemory.  The
case n = 0 is excluded: there the constructor still seats the free list
head at the buffer base, so the first call succeeds instead of failing
(see the counterexample). -/
theorem pool_exhaustion (base sz n : Nat) (hn : 1 ≤ n) :
    (MemoryPool.init base sz n).allocRun n =
      (Except.ok ((List.range n).map (fun i => base + i * sz)),
       { pool := base, blockSize := sz, freeList := [], blockCount := n })
    ∧ (({ pool := base, blockSize := sz, freeList := [], blockCount := n } :
        MemoryPool).Allocate).1 = Except.error AllocError.outOfMemory :=
  ⟨allocRun_init base sz n hn, rfl⟩

/-- C1 counterexample: with blockCount 0 the claim fails.  The
constructor of MemoryPool(0) sets m_FreeList to the buffer base, which is
not null, so the (0+1)-th Allocate call does not fail with OutOfMemory:
it succeeds and hands out the base of the zero-byte buffer. -/
theorem pool_exhaustion_cex :
    ((MemoryPool.init 1024 8 0).Allocate).1 = Except.ok 1024
    ∧ ((MemoryPool.init 1024 8 0).Allocate).1 ≠ Except.error AllocError.outOfMemory := by
  constructor
  · rfl
  · exact fun h => Except.noConfusion h

/-- Witness for pool_exhaustion at base 1024, block size 8, n = 3. -/
theorem pool_exhaustion_witness :
    (MemoryPool.init 1024 8 3).allocRun 3 =
      (Except.ok [1024, 1032, 1040],
       { pool := 1024, blockSize := 8, freeList := [], blockCount := 3 })
    ∧ (({ pool := 1024, blockSize := 8, freeList := [], blockCount := 3 } :
        MemoryPool).Allocate).1 = Except.error AllocError.outOfMemory := by
  have h := pool_exhaustion 1024 8 3 (by decide)
  exact ⟨h.1, h.2⟩

/-- C3: after Deallocate(p) the very next Allocate succeeds and returns
exactly p, restoring the pool state from before the Deallocate.  This
holds for every pool state and every pointer (the deallocated block is
pushed on the front of the free list and the next Allocate pops the
front), in particular for pointers previously returned by Allocate and
not since deallocated, as the claim phrases it. -/
theorem pool_lifo_reuse (p : MemoryPool) (q : Nat) :
    (p.Deallocate q).Allocate = (Except.ok q, p) := rfl

/-- C6 (amended): for every blockCount n with 1 ≤ n, the freshly built
free list threads the slots in ascending address order (slot 0 up to
slot n-1, then none), the i-th of n consecutive successful Allocate
calls returns storage + i * sizeof(T) (the harness returns exactly that
list of addresses, in order), all n addresses are pairwise distinct, and
each lies within storage .. storage + n * sizeof(T).  The hypothesis
1 ≤ sz reflects that sizeof(T) is at least 1 for every C++ type.  The
case n = 0 is excluded: there the constructed chain is not empty (see
the counterexample). -/
theorem pool_ascending_chain (base sz n : Nat) (hn : 1 ≤ n) (hsz : 1 ≤ sz) :
    (MemoryPool.init base sz n).freeList = (List.range n).map (fun i => base + i * sz)
    ∧ (MemoryPool.init base sz n).allocRun n =
        (Except.ok ((List.range n).map (fun i => base + i * sz)),
         { pool := base, blockSize := sz, freeList := [], blockCount := n })
    ∧ List.Pairwise (fun x y => x ≠ y) ((List.range n).map (fun i => base + i * sz))
    ∧ ListAll (fun q => base ≤ q ∧ q < base + n * sz)
        ((List.range n).map (fun i => base + i * sz)) := by
  refine ⟨@init_freeList base sz n hn, allocRun_init base sz n hn, ?_, ?_⟩
  · rw [List.pairwise_map]
    apply List.Pairwise.imp ?_ (List.pairwise_lt_range n)
    intro i j hij
    have : i * sz < j * sz := Nat.mul_lt_mul_of_lt_of_le hij (le_refl sz) hsz
    omega
  · rw [listAll_iff_forall]
    intro q hq
    obtain ⟨i, hi, rfl⟩ := List.mem_map.mp hq
    have hi2 : i < n := List.mem_range.mp hi
    have h1 : (i + 1) * sz ≤ n * sz := Nat.mul_le_mul_right sz hi2
    have h2 : (i + 1) * sz = i * sz + sz := by ring
    omega

/-- C6 counterexample: with blockCount 0 the free list does not thread
the (zero) slots and then none: the claim requires an empty chain, but
the constructor leaves a one-node chain seated at the buffer base. -/
theorem pool_ascending_chain_cex :
    (MemoryPool.init 2048 8 0).freeList = [2048]
    ∧ (MemoryPool.init 2048 8 0).freeList ≠ ([] : List Nat) := by
  constructor
  · rfl
  · decide

/-- Witness for pool_ascending_chain at base 512, block size 8, n = 3. -/
theorem pool_ascending_chain_witness :
    (MemoryPool.init 512 8 3).freeList = [512, 520, 528]
    ∧ (MemoryPool.init 512 8 3).allocRun 3 =
        (Except.ok [512, 520, 528],
         { pool := 512, blockSize := 8, freeList := [], blockCount := 3 })
    ∧ List.Pairwise (fun x y => x ≠ y) [512, 520, 528]
    ∧ ListAll (fun q => 512 ≤ q ∧ q < 512 + 3 * 8) [512, 520, 528] := by
  have h := pool_ascending_chain 512 8 3 (by decide) (by decide)
  exact ⟨h.1, h.2.1, h.2.2.1, h.2.2.2⟩

/-- C10: whenever Allocate on the pool or allocate on either arena fails
with OutOfMemory, the state after the call is exactly the state before
it: the throw of std::bad_alloc precedes every member write in all three
functions, so the free list head and chain, and the bump offsets, are
untouched and later operations behave as if the failing call had never
been made. -/
theorem alloc_failure_preserves_state :
    (∀ (p : MemoryPool) (e : AllocError),
      (p.Allocate).1 = Except.error e → (p.Allocate).2 = p)
    ∧ (∀ (a : MemoryArena) (s al : Nat) (e : AllocError),
      (a.allocate s al).1 = Except.error e → (a.allocate s al).2 = a)
    ∧ (∀ (ar : Arena) (s : Nat) (e : AllocError),
      (ar.allocate s).1 = Except.error e → (ar.allocate s).2 = ar) := by
  refine ⟨?_, ?_, ?_⟩
  · intro p e h
    unfold MemoryPool.Allocate at h ⊢
    match hfl : p.freeList with
    | [] => rfl
    | b :: rest => rw [hfl] at h; exact absurd h (by simp)
  · intro a s al e h
    unfold MemoryArena.allocate at h ⊢
    split at h
    · next hc => simp [hc]
    · exact absurd h (by simp)
  · intro ar s e h
    unfold Arena.allocate at h ⊢
    split at h
    · next hc => simp [hc]
    · exact absurd h (by simp)

/-- Witness for alloc_failure_preserves_state: an exhausted pool and two
full arenas. -/
theorem alloc_failure_preserves_state_witness :
    (({ pool := 1024, blockSize := 8, freeList := [], blockCount := 2 } :
       MemoryPool).Allocate).2 =
      { pool := 1024, blockSize := 8, freeList := [], blockCount := 2 }
    ∧ (({ buffer := 512, capacity := 4, offset := 4 } : MemoryArena).allocate 5 1).2 =
      { buffer := 512, capacity := 4, offset := 4 }
    ∧ (({ memory := 512, capacity := 4, offset := 4 } : Arena).allocate 5).2 =
      { memory := 512, capacity := 4, offset := 4 } := by
  refine ⟨?_, ?_, ?_⟩
  · exact alloc_failure_preserves_state.1 _ AllocError.outOfMemory rfl
  · exact alloc_failure_preserves_state.2.1 _ 5 1 AllocError.outOfMemory rfl
  · exact alloc_failure_preserves_state.2.2 _ 5 AllocError.outOfMemory rfl

/-- C2: for every successful allocate(size, alignment) with a
power-of-two alignment (and a buffer whose aligned end address fits in
the 64-bit address space, as any really allocated buffer does), the
returned address is a multiple of the alignment and is the smallest
address at or after buffer + offset with that property: it lies in the
half-open window of length alignment starting at buffer + offset, and it
is computed by exactly the source rule
(current + alignment - 1) AND (complement of (alignment - 1)). -/
theorem arena_alignment (a : MemoryArena) (s al k p : Nat) (a1 : MemoryArena)
    (hk : k < 64) (hal : al = 2 ^ k)
    (hbd : a.buffer + a.offset + al ≤ WORD)
    (hsucc : a.allocate s al = (Except.ok p, a1)) :
    p % al = 0
    ∧ a.buffer + a.offset ≤ p
    ∧ p < a.buffer + a.offset + al
    ∧ p = Nat.land (a.buffer + a.offset + al - 1) (not64 (al - 1)) := by
  have hpos : 0 < al := hal ▸ Nat.pos_pow_of_pos k (by norm_num)
  have hadj := @adjustmentOf_eq a al k hk hal hbd
  have hA := @alignedOf_eq a al k hk hal hbd
  have hpeq : p = a.buffer + a.offset + a.adjustmentOf al := by
    unfold MemoryArena.allocate at hsucc
    split at hsucc
    · exact absurd (congrArg Prod.fst hsucc) (by simp)
    · rw [Prod.mk.injEq, Except.ok.injEq] at hsucc
      rw [← hsucc.1]
      exact @tr64_eq_of_lt (a.buffer + a.offset + a.adjustmentOf al) (by omega)
  refine ⟨?_, by omega, by omega, ?_⟩
  · rw [hpeq, hadj.1, hal]
    exact Nat.mul_mod_right _ _
  · have hnot : not64 (al - 1) = WORD - al := by
      rw [hal, not64_pow_sub_one hk]
    rw [hpeq, hadj.1, hnot, hal]
    exact (land_word_mask (le_of_lt hk) (by omega)).symm

/-- Witness for arena_alignment: buffer at 1028, capacity 16, offset 1,
allocate(4, 8) succeeds and returns 1032, the smallest 8-aligned address
at or after 1029, equal to the source mask rule applied to 1036. -/
theorem arena_alignment_witness :
    1032 % 8 = 0
    ∧ 1028 + 1 ≤ 1032
    ∧ 1032 < 1028 + 1 + 8
    ∧ 1032 = Nat.land (1028 + 1 + 8 - 1) (not64 (8 - 1)) := by
  have h := arena_alignment { buffer := 1028, capacity := 16, offset := 1 } 4 8 3 1032
    { buffer := 1028, capacity := 16, offset := 8 } (by decide) rfl (by norm_num [WORD]) rfl
  exact h

/-- C4: on a fresh arena of capacity 64 (at any buffer address whose end
fits the address space), allocate(64, 1) succeeds and returns the buffer
base while allocate(65, 1) fails with OutOfMemory; in general an
allocate call fails with OutOfMemory exactly when the size_t sum
offset + adjustment + size exceeds the capacity, and no call ever grows
the arena or moves it to a fallback buffer: the buffer and capacity
fields are preserved by every allocate call, successful or not. -/
theorem arena_capacity_boundary (base : Nat) (hb : base + 65 ≤ WORD) :
    (MemoryArena.init base 64).allocate 64 1 =
      (Except.ok base, { buffer := base, capacity := 64, offset := 64 })
    ∧ (MemoryArena.init base 64).allocate 65 1 =
      (Except.error AllocError.outOfMemory, MemoryArena.init base 64)
    ∧ (∀ (a : MemoryArena) (s al : Nat),
        (a.allocate s al).1 = Except.error AllocError.outOfMemory ↔
          a.capacity < tr64 (a.offset + a.adjustmentOf al + s))
    ∧ (∀ (a : MemoryArena) (s al : Nat),
        ((a.allocate s al).2).buffer = a.buffer
        ∧ ((a.allocate s al).2).capacity = a.capacity) := by
  have hW : (64 : Nat) < WORD := by norm_num [WORD]
  have hbase : tr64 base = base := tr64_eq_of_lt (by omega)
  have hinit : MemoryArena.init base 64 = { buffer := base, capacity := 64, offset := 0 } := by
    unfold MemoryArena.init
    rw [hbase, tr64_eq_of_lt hW]
  have hadj : (MemoryArena.init base 64).adjustmentOf 1 = 0 := by
    have := @adjustmentOf_eq (MemoryArena.init base 64) 1 0 (by decide) (by decide)
      (by rw [hinit]; simpa using by omega)
    omega
  have hbd0 : (MemoryArena.init base 64).buffer + (MemoryArena.init base 64).offset + 1
      ≤ WORD := by
    rw [hinit]
    simp only
    omega
  refine ⟨?_, ?_, ?_, ?_⟩
  · have hclean := @allocate_eq_clean (MemoryArena.init base 64) 64 1 0 (by decide) (by decide)
      hbd0 (by simp only [hinit]; omega)
    rw [hclean, hadj, hinit]
    norm_num
  · have hclean := @allocate_eq_clean (MemoryArena.init base 64) 65 1 0 (by decide) (by decide)
      hbd0 (by simp only [hinit]; norm_num [WORD])
    rw [hclean, hadj, hinit]
    norm_num
  · intro a s al
    rw [MemoryArena.allocate]
    split
    · next hc => simpa using hc
    · next hc => simpa using hc
  · intro a s al
    rw [MemoryArena.allocate]
    split
    · exact ⟨rfl, rfl⟩
    · exact ⟨rfl, rfl⟩

/-- C5 (amended): in every state reachable from construction by any
sequence of allocate and reset calls, the offset stays between 0 and the
capacity (this part unconditionally, for arbitrary call arguments); and
every pointer returned by a successful allocate lies in the half-open
buffer range and satisfies its requested alignment, provided each
allocation requests a positive size and a power-of-two alignment with
parameters that cannot wrap the size_t bounds check.  The size-zero and
wrap-around counterexamples force these provisos: a successful
allocate(0, 1) on a full arena returns buffer + capacity, one past the
claimed half-open range. -/
theorem arena_invariant (base cap : Nat) (cs : List ArenaCmd)
    (hb : base < WORD) (hc : cap < WORD) :
    ((MemoryArena.init base cap).exec cs).offset ≤ cap
    ∧ (ListAll (GoodCmd base cap) cs →
        ListAll (InRangePtr base cap) ((MemoryArena.init base cap).ptrs cs)) := by
  have hbase : (MemoryArena.init base cap).buffer = base := tr64_eq_of_lt hb
  have hcap : (MemoryArena.init base cap).capacity = cap := tr64_eq_of_lt hc
  constructor
  · have h := exec_offset_le cs (MemoryArena.init base cap) (by rw [hcap]; exact Nat.zero_le _)
    rw [hcap] at h
    exact h
  · intro hgood
    exact ptrs_spec cs base cap (MemoryArena.init base cap) hbase hcap (Nat.zero_le _) hgood

/-- C5 counterexample: a zero-size allocation on a full arena succeeds
and returns buffer + capacity, which does not lie in the claimed
half-open range from buffer to buffer + capacity. -/
theorem arena_invariant_cex :
    ((((MemoryArena.init 1024 64).allocate 64 1).2).allocate 0 1).1 = Except.ok 1088
    ∧ ¬ (1088 < 1024 + 64) := by
  constructor
  · rfl
  · decide

/-- Witness for arena_invariant on a concrete three-call trace. -/
theorem arena_invariant_witness :
    ((MemoryArena.init 1024 64).exec
        [ArenaCmd.alloc 8 8, ArenaCmd.reset, ArenaCmd.alloc 16 4]).offset ≤ 64
    ∧ ListAll (InRangePtr 1024 64)
        ((MemoryArena.init 1024 64).ptrs
          [ArenaCmd.alloc 8 8, ArenaCmd.reset, ArenaCmd.alloc 16 4]) := by
  have h := arena_invariant 1024 64
    [ArenaCmd.alloc 8 8, ArenaCmd.reset, ArenaCmd.alloc 16 4]
    (by norm_num [WORD]) (by norm_num [WORD])
  refine ⟨h.1, h.2 ?_⟩
  refine ⟨⟨by decide, ⟨3, by decide, rfl⟩, by norm_num [WORD]⟩, trivial,
    ⟨by decide, ⟨2, by decide, rfl⟩, by norm_num [WORD]⟩, trivial⟩

/-- C7 (amended): two consecutive successful allocations without a reset
in between, with power-of-two alignments and sizes that cannot wrap the
size_t bounds check, return non-decreasing addresses, and the first
address plus its requested size plus the alignment padding of the second
allocation never exceeds the second address (it reaches it exactly).
Applied along a chain of calls this gives the claimed monotonicity for
any sequence of successful allocations.  The wrap-around counterexample
(an allocation of size 2 ^ 64 - 1 that the truncated bounds check lets
through) forces the no-overflow proviso. -/
theorem arena_monotonic (a : MemoryArena) (s1 al1 k1 s2 al2 k2 p1 p2 : Nat)
    (a1 a2 : MemoryArena)
    (hk1 : k1 < 64) (hal1 : al1 = 2 ^ k1) (hk2 : k2 < 64) (hal2 : al2 = 2 ^ k2)
    (hb1 : a.buffer + a.capacity + al1 + s1 ≤ WORD)
    (hb2 : a.buffer + a.capacity + al2 + s2 ≤ WORD)
    (hoff : a.offset ≤ a.capacity)
    (h1 : a.allocate s1 al1 = (Except.ok p1, a1))
    (h2 : a1.allocate s2 al2 = (Except.ok p2, a2)) :
    p1 ≤ p2 ∧ p1 + s1 + a1.adjustmentOf al2 ≤ p2 := by
  have hpos1 : 0 < al1 := hal1 ▸ Nat.pos_pow_of_pos k1 (by norm_num)
  have hpos2 : 0 < al2 := hal2 ▸ Nat.pos_pow_of_pos k2 (by norm_num)
  have hclean1 := @allocate_eq_clean a s1 al1 k1 hk1 hal1 (by omega) (by omega)
  rw [hclean1] at h1
  split at h1
  · exact absurd (congrArg Prod.fst h1) (by simp)
  · next hc1 =>
    have hle1 : a.offset + a.adjustmentOf al1 + s1 ≤ a.capacity := Nat.not_lt.mp hc1
    rw [Prod.mk.injEq, Except.ok.injEq] at h1
    obtain ⟨hp1, ha1⟩ := h1
    have hbuf1 : a1.buffer = a.buffer := by rw [← ha1]
    have hcap1 : a1.capacity = a.capacity := by rw [← ha1]
    have hoff1 : a1.offset = a.offset + a.adjustmentOf al1 + s1 := by rw [← ha1]
    have hclean2 := @allocate_eq_clean a1 s2 al2 k2 hk2 hal2 (by omega) (by omega)
    rw [hclean2] at h2
    split at h2
    · exact absurd (congrArg Prod.fst h2) (by simp)
    · next hc2 =>
      rw [Prod.mk.injEq, Except.ok.injEq] at h2
      obtain ⟨hp2, ha2⟩ := h2
      omega

/-- C7 counterexample: on a fresh arena of capacity 64 at base 1024,
allocate(1, 1) returns 1024, then allocate(2 ^ 64 - 1, 1) is let through
by the wrapped size_t bounds check and returns 1025 while moving the
offset back to 0, and the next allocate(1, 1) returns 1024 again: the
addresses of consecutive successful allocations decrease, and the second
address plus its size exceeds the third address by far. -/
theorem arena_monotonic_cex :
    ((MemoryArena.init 1024 64).allocate 1 1).1 = Except.ok 1024
    ∧ ((((MemoryArena.init 1024 64).allocate 1 1).2).allocate (WORD - 1) 1).1 = Except.ok 1025
    ∧ (((((MemoryArena.init 1024 64).allocate 1 1).2).allocate (WORD - 1) 1).2.allocate 1 1).1
        = Except.ok 1024
    ∧ ¬ (1025 ≤ 1024) := by
  refine ⟨rfl, rfl, rfl, by decide⟩

/-- Witness for arena_monotonic: allocate(4, 1) then allocate(8, 8) on a
fresh arena at base 1024 return 1024 and 1032, and 1024 + 4 + padding 4
equals 1032. -/
theorem arena_monotonic_witness :
    (1024 : Nat) ≤ 1032
    ∧ 1024 + 4 +
        ({ buffer := 1024, capacity := 64, offset := 4 } : MemoryArena).adjustmentOf 8 ≤ 1032 := by
  have h := arena_monotonic { buffer := 1024, capacity := 64, offset := 0 } 4 1 0 8 8 3
    1024 1032 { buffer := 1024, capacity := 64, offset := 4 }
    { buffer := 1024, capacity := 64, offset := 16 } (by decide) rfl (by decide) rfl
    (by norm_num [WORD]) (by norm_num [WORD]) (by decide) rfl rfl
  exact h

/-- C8 (amended): reset() at offset 0 leaves the arena unchanged, and
after any reset() an allocate(size, alignment) call produces exactly the
result that the same call produces on the freshly constructed arena: in
particular, repeating the size and alignment of the first-ever
allocation reproduces its address.  A combination with an alignment
different from the first call can return a different address (see the
counterexample), which is what the amendment removes from the claim. -/
theorem arena_reset_determinism (a : MemoryArena)
    (hb : a.buffer < WORD) (hc : a.capacity < WORD) :
    (a.offset = 0 → a.reset = a)
    ∧ ∀ s al : Nat,
        (a.reset).allocate s al = (MemoryArena.init a.buffer a.capacity).allocate s al := by
  have hre : a.reset = MemoryArena.init a.buffer a.capacity := by
    unfold MemoryArena.reset MemoryArena.init
    rw [tr64_eq_of_lt hb, tr64_eq_of_lt hc]
  constructor
  · intro h0
    obtain ⟨ab, ac, ao⟩ := a
    simp only at h0
    subst h0
    rfl
  · intro s al
    rw [hre]

/-- C8 counterexample: on an arena at base 1028 with capacity 16, the
first-ever allocation allocate(1, 1) returns 1028; allocate(4, 8) then
succeeds returning 1032; after reset(), the next allocate(4, 8) (a
combination that previously succeeded) succeeds but returns 1032, not
the first-ever address 1028 that the claim requires. -/
theorem arena_reset_determinism_cex :
    ((MemoryArena.init 1028 16).allocate 1 1).1 = Except.ok 1028
    ∧ ((((MemoryArena.init 1028 16).allocate 1 1).2).allocate 4 8).1 = Except.ok 1032
    ∧ (((((MemoryArena.init 1028 16).allocate 1 1).2).allocate 4 8).2.reset.allocate 4 8).1
        = Except.ok 1032
    ∧ (1032 : Nat) ≠ 1028 := by
  refine ⟨rfl, rfl, rfl, by decide⟩

/-- Witness for arena_reset_determinism at a concrete arena state. -/
theorem arena_reset_determinism_witness :
    (({ buffer := 2048, capacity := 32, offset := 0 } : MemoryArena).reset
      = { buffer := 2048, capacity := 32, offset := 0 })
    ∧ (({ buffer := 2048, capacity := 32, offset := 0 } : MemoryArena).reset.allocate 8 4
      = (MemoryArena.init 2048 32).allocate 8 4) := by
  have h := arena_reset_determinism { buffer := 2048, capacity := 32, offset := 0 }
    (by norm_num [WORD]) (by norm_num [WORD])
  exact ⟨h.1 rfl, h.2 8 4⟩

/-- Witness for arena_capacity_boundary at buffer base 4096. -/
theorem arena_capacity_boundary_witness :
    (MemoryArena.init 4096 64).allocate 64 1 =
      (Except.ok 4096, { buffer := 4096, capacity := 64, offset := 64 })
    ∧ (MemoryArena.init 4096 64).allocate 65 1 =
      (Except.error AllocError.outOfMemory, MemoryArena.init 4096 64) := by
  have h := arena_capacity_boundary 4096 (by norm_num [WORD])
  exact ⟨h.1, h.2.1⟩
